import Mathlib

set_option maxHeartbeats 1000000

/-!
Shallow embedding of demo/demo_multifile.py: a batch driver that converts
PDF documents with an external parsing pipeline and caches model-inference
results in model.json files. Paths are modelled as strings with POSIX join
semantics, the filesystem as a list of existing directories plus an
association list from file path to file content. The external pipeline
stages (classify, analyze, parse) and read_fn are modelled by an
environment recording whether each stage raises and what it produces.
Python exit(code) raises SystemExit, which is not an Exception and hence
is not caught by the except Exception clause of the batch loop; the model
keeps these two kinds of control flow distinct.
-/

/-- Opaque per-page model-inference record; the record schema is owned by
the external pipeline, so records are abstracted as natural numbers. -/
abbrev MRec := Nat

/-- Content of a file in the modelled filesystem. A model.json written by
the driver holds a JSON array of records (jsonModels); garbled stands for
content on which json.loads raises; text and bin are opaque payloads. -/
inductive FileData where
  | jsonModels (records : List MRec)
  | garbled
  | text (s : String)
  | bin (s : String)
deriving DecidableEq

/-- The modelled filesystem: the set of directories that exist and an
association list from path to content, newest entry first. -/
structure FS where
  dirs : List String
  files : List (String × FileData)
deriving DecidableEq

/-- os.makedirs with exist_ok, recorded as inserting the one path. -/
def FS.mkdirs (fs : FS) (d : String) : FS :=
  if fs.dirs.contains d then fs else { fs with dirs := d :: fs.dirs }

/-- Writing a file: the new entry shadows any older entry at this path. -/
def FS.write (fs : FS) (p : String) (d : FileData) : FS :=
  { fs with files := (p, d) :: fs.files }

/-- Reading a file: the most recent entry at this path, if any. -/
def FS.readAt (fs : FS) (p : String) : Option FileData :=
  match fs.files.find? (fun e => e.1 == p) with
  | some e => some e.2
  | none => none

/-- str.startswith, computed on the character sequence so that concrete
instances reduce inside the kernel. -/
def strStartsWith (s pre : String) : Bool := pre.data.isPrefixOf s.data

/-- str.endswith, computed on the character sequence. -/
def strEndsWith (s suf : String) : Bool := suf.data.isSuffixOf s.data

/-- str.split on a single character, computed on the character sequence. -/
def splitOnChar (c : Char) : List Char → List (List Char)
  | [] => [[]]
  | ch :: rest =>
    let r := splitOnChar c rest
    if ch = c then [] :: r
    else match r with
      | [] => [[ch]]
      | g :: gs => (ch :: g) :: gs

/-- sep.join on character groups, inverse of splitOnChar. -/
def joinWithChar (c : Char) : List (List Char) → List Char
  | [] => []
  | g :: gs => if gs.isEmpty then g else g ++ c :: joinWithChar c gs

/-- posixpath.join on two components, the semantics of os.path.join used
throughout the source. -/
def osJoin (a b : String) : String :=
  if strStartsWith b "/" then b
  else if a = "" then b
  else if strEndsWith a "/" then a ++ b
  else a ++ "/" ++ b

/-- os.path.basename: the part of a path after the last slash. -/
def basename (p : String) : String :=
  ⟨((splitOnChar '/' p.data).getLast?).getD p.data⟩

/-- pathlib Path(p).stem: the basename with its final extension removed;
a leading dot alone does not start an extension. -/
def stem (p : String) : String :=
  let n := basename p
  match splitOnChar '.' n.data with
  | [_] => n
  | parts =>
    if strStartsWith n "." && parts.length == 2 then n
    else ⟨joinWithChar '.' parts.dropLast⟩

/-- The magic_pdf.model global configuration; main sets useInsideModel to
true and modelMode to full before processing any document. -/
structure ModelConfig where
  useInsideModel : Bool
  modelMode : String
deriving DecidableEq

/-- The f_ keyword flags of do_parse, all defaulting to true. -/
structure DoParseFlags where
  drawSpanBbox : Bool := true
  drawLayoutBbox : Bool := true
  dumpMd : Bool := true
  dumpMiddleJson : Bool := true
  dumpModelJson : Bool := true
  dumpOrigPdf : Bool := true
  dumpContentList : Bool := true
deriving DecidableEq

def defaultFlags : DoParseFlags := {}

/-- Behaviour of the external pipeline object (UNIPipe, TXTPipe or OCRPipe)
on one document: whether each stage raises an Exception, the record list
pipe_analyze would produce, and the opaque payloads of the rendered
outputs. All three pipeline variants expose the same stage contract, so
one environment covers each branch of the method dispatch. -/
structure PipeEnv where
  classifyRaises : Bool
  analyzeRaises : Bool
  analyzeResult : List MRec
  parseRaises : Bool
  midData : String
  markdown : String
  contentList : String
deriving DecidableEq

/-- Per-document external behaviour: read_fn and the pipeline. -/
structure DocEnv where
  readRaises : Bool
  pdfBytes : String
  pipe : PipeEnv
deriving DecidableEq

/-- Result of running do_parse, or one iteration of the batch loop body,
on one document: normal return, a raised Exception (which the batch loop
catches), or a SystemExit from exit(code) (which it does not catch). The
analyzed flag records whether pipe_analyze was invoked. -/
inductive DPResult where
  | ok (fs : FS) (analyzed : Bool)
  | exc (fs : FS) (analyzed : Bool)
  | fatal (code : Nat) (fs : FS)
deriving DecidableEq

/-- The artifact directory os.path.join(output_dir, pdf_file_name, method)
computed by prepare_env. -/
def localMdDir (output_dir pdf_file_name method : String) : String :=
  osJoin (osJoin output_dir pdf_file_name) method

/-- prepare_env: computes the artifact directory and its images
subdirectory and creates both (os.makedirs, exist_ok=True). Returns the
updated filesystem with the image directory and markdown directory paths. -/
def prepare_env (fs : FS) (output_dir pdf_file_name method : String) :
    FS × String × String :=
  let local_parent_dir := localMdDir output_dir pdf_file_name method
  let local_image_dir := osJoin local_parent_dir "images"
  let local_md_dir := local_parent_dir
  ((fs.mkdirs local_image_dir).mkdirs local_md_dir, local_image_dir, local_md_dir)

/-- The tail of do_parse once the model list is resolved: pipe_parse, the
debug overlay writers (external renderers whose outputs are outside the
modelled artifact set), and the artifact dumps, in source order. The md
writer is rooted at the artifact directory, so each dump lands at
osJoin local_md_dir name. -/
def do_parse_dump (env : PipeEnv) (fs : FS)
    (local_md_dir pdf_file_name pdf_bytes : String)
    (orig_model_list : List MRec) (analyzed : Bool) (flags : DoParseFlags) :
    DPResult :=
  if env.parseRaises then .exc fs analyzed
  else
    let fs := if flags.dumpMd then
        fs.write (osJoin local_md_dir (pdf_file_name ++ ".md")) (.text env.markdown)
      else fs
    let fs := if flags.dumpMiddleJson then
        fs.write (osJoin local_md_dir "middle.json") (.text env.midData)
      else fs
    let fs := if flags.dumpModelJson then
        fs.write (osJoin local_md_dir "model.json") (.jsonModels orig_model_list)
      else fs
    let fs := if flags.dumpOrigPdf then
        fs.write (osJoin local_md_dir "origin.pdf") (.bin pdf_bytes)
      else fs
    let fs := if flags.dumpContentList then
        fs.write (osJoin local_md_dir "content_list.json") (.text env.contentList)
      else fs
    .ok fs analyzed

/-- do_parse: deep-copies the model list, prepares the output directories,
dispatches on parse_method (exit(1) on an unknown method, after the
directories were already created), runs pipe_classify, runs pipe_analyze
when the supplied model list is empty (exit(2) there when no internal
inference model is configured), then parses and dumps the artifacts. -/
def do_parse (env : PipeEnv) (cfg : ModelConfig) (fs : FS)
    (output_dir pdf_file_name pdf_bytes : String)
    (model_list : List MRec) (parse_method : String) (flags : DoParseFlags) :
    DPResult :=
  let orig_model_list := model_list
  let pe := prepare_env fs output_dir pdf_file_name parse_method
  let fs1 := pe.1
  let local_md_dir := pe.2.2
  if parse_method = "auto" ∨ parse_method = "txt" ∨ parse_method = "ocr" then
    if env.classifyRaises then .exc fs1 false
    else if model_list.length = 0 then
      if cfg.useInsideModel then
        if env.analyzeRaises then .exc fs1 true
        else do_parse_dump env fs1 local_md_dir pdf_file_name pdf_bytes
          env.analyzeResult true flags
      else .fatal 2 fs1
    else do_parse_dump env fs1 local_md_dir pdf_file_name pdf_bytes
      orig_model_list false flags
  else .fatal 1 fs1

/-- The model.json cache path computed in main:
os.path.join(out_dir, file_name, parse_method, model.json). -/
def model_list_path (out_dir file_name parse_method : String) : String :=
  osJoin (osJoin (osJoin out_dir file_name) parse_method) "model.json"

/-- The path at which do_parse dumps model.json, through the md writer
rooted at the artifact directory. -/
def model_dump_path (output_dir pdf_file_name method : String) : String :=
  osJoin (localMdDir output_dir pdf_file_name method) "model.json"

/-- The ModelCache lookup of main as a total function: the parsed records
when a parseable model.json exists at the cache path, none otherwise. -/
def modelCacheLookup (fs : FS) (out_dir file_name parse_method : String) :
    Option (List MRec) :=
  match fs.readAt (model_list_path out_dir file_name parse_method) with
  | some (.jsonModels rs) => some rs
  | _ => none

/-- One iteration of the batch loop body (the try block of main): compute
the document name, read the pdf bytes, probe the model.json cache
(json.loads raises on garbled content and the exception escapes to the
loop), then call do_parse with the default flags. -/
def processOne (cfg : ModelConfig) (env : DocEnv) (fs : FS)
    (out_dir pdf_path parse_method : String) : DPResult :=
  let file_name := stem pdf_path
  if env.readRaises then .exc fs false
  else
    match fs.readAt (model_list_path out_dir file_name parse_method) with
    | some (.jsonModels rs) =>
        do_parse env.pipe cfg fs out_dir file_name env.pdfBytes rs
          parse_method defaultFlags
    | some _ => .exc fs false
    | none =>
        do_parse env.pipe cfg fs out_dir file_name env.pdfBytes []
          parse_method defaultFlags

/-- The input path handed to main: a single file, or a directory whose
files are listed as relative segment paths in discovery order. -/
inductive InputFS where
  | file (path : String)
  | dir (path : String) (entries : List (List String))
deriving DecidableEq

/-- Whether the recursive glob pattern matches a relative path: every
segment nonempty and not hidden, and the filename ends in the lowercase
extension (fnmatch on this platform is case-sensitive and skips dotfiles). -/
def pdfMatch (e : List String) : Bool :=
  !e.isEmpty && e.all (fun s => !(s = "") && !strStartsWith s ".")
    && strEndsWith ((e.getLast?).getD "") ".pdf"

/-- The recursive pdf glob over a directory listing, order preserved. -/
def globPdf (entries : List (List String)) : List (List String) :=
  entries.filter pdfMatch

/-- Joins relative path segments with slashes. -/
def joinPathSegs : List String → String
  | [] => ""
  | s :: rest => if rest.isEmpty then s else s ++ "/" ++ joinPathSegs rest

/-- os.path.relpath(os.path.dirname(f), file_path) for a discovered file
given by its segment path relative to file_path: the parent segments
joined, or a lone dot for a file at the root itself. -/
def relDirOf (e : List String) : String :=
  if e.dropLast.isEmpty then "." else joinPathSegs e.dropLast

/-- Lines 137 to 148 of the source: enumerate the files to process with
their output directories. A single file maps to itself with relative
directory dot; a directory is recursively globbed and each file keeps its
relative parent directory; dot entries are then replaced by the empty
string and each is joined under out_root. -/
def collectJobs (inp : InputFS) (out_root : String) : List (String × String) :=
  match inp with
  | .file p =>
    let file_paths := [p]
    let rel_dirs := ["."]
    let rel_dirs := rel_dirs.map (fun d => if d = "." then "" else d)
    file_paths.zip (rel_dirs.map (fun d => osJoin out_root d))
  | .dir root entries =>
    let found := globPdf entries
    let file_paths := found.map (fun e => osJoin root (joinPathSegs e))
    let rel_dirs := found.map relDirOf
    let rel_dirs := rel_dirs.map (fun d => if d = "." then "" else d)
    file_paths.zip (rel_dirs.map (fun d => osJoin out_root d))

/-- Outcome of the whole batch: the loop finished and the summary was
printed, or a SystemExit escaped the loop and the process died with the
given status. attempted lists the documents whose loop body was entered,
summary the documents whose row was appended to the result list (the
wall-clock durations are not modelled). -/
inductive RunOutcome where
  | finished (fs : FS) (attempted : List String) (summary : List String)
  | fatal (code : Nat) (fs : FS) (attempted : List String) (summary : List String)
deriving DecidableEq

/-- Lines 151 to 172 of the source: the per-document loop with its
try/except Exception. Exceptions are caught and logged and the loop
continues; SystemExit is not an Exception, so it propagates and the
process terminates with the exit code. -/
def runDocs (cfg : ModelConfig) (envOf : String → DocEnv) (parse_method : String) :
    List (String × String) → FS → List String → List String → RunOutcome
  | [], fs, att, summ => .finished fs att summ
  | (pdf_path, out_dir) :: rest, fs, att, summ =>
    match processOne cfg (envOf pdf_path) fs out_dir pdf_path parse_method with
    | .ok fs' _ =>
        runDocs cfg envOf parse_method rest fs' (att ++ [pdf_path]) (summ ++ [pdf_path])
    | .exc fs' _ =>
        runDocs cfg envOf parse_method rest fs' (att ++ [pdf_path]) summ
    | .fatal c fs' => .fatal c fs' (att ++ [pdf_path]) summ

/-- main: unconditionally enables the internal inference model, collects
the jobs for the input path, then runs the batch loop. -/
def mainRun (envOf : String → DocEnv) (inp : InputFS) (out_root : String)
    (fs : FS) (parse_method : String) : RunOutcome :=
  let cfg : ModelConfig := { useInsideModel := true, modelMode := "full" }
  runDocs cfg envOf parse_method (collectJobs inp out_root) fs [] []

/-- Whether pipe_analyze was invoked during a per-document result. -/
def analyzedOf : DPResult → Bool
  | .ok _ a => a
  | .exc _ a => a
  | .fatal _ _ => false

/-- The filesystem carried by a per-document result. -/
def DPResult.fsOf : DPResult → FS
  | .ok fs _ => fs
  | .exc fs _ => fs
  | .fatal _ fs => fs

/-- The filesystem at the end of a run. -/
def RunOutcome.fsOf : RunOutcome → FS
  | .finished fs _ _ => fs
  | .fatal _ fs _ _ => fs

/-- The exit status of a run, when the process died from a SystemExit. -/
def RunOutcome.fatalCode : RunOutcome → Option Nat
  | .finished _ _ _ => none
  | .fatal c _ _ _ => some c

/-- The documents whose loop body was entered, in discovery order. -/
def RunOutcome.attemptedOf : RunOutcome → List String
  | .finished _ a _ => a
  | .fatal _ _ a _ => a

/-- The documents reported in the final summary. -/
def RunOutcome.summaryOf : RunOutcome → List String
  | .finished _ _ s => s
  | .fatal _ _ _ s => s

/-- Whether a per-document result is a normal return. -/
def DPResult.isOk : DPResult → Bool
  | .ok _ _ => true
  | _ => false

/-- The exit status carried by a per-document result, when it is a
SystemExit. -/
def DPResult.fatalCodeOf : DPResult → Option Nat
  | .fatal c _ => some c
  | _ => none

theorem FS.readAt_write (fs : FS) (p q : String) (d : FileData) :
    (fs.write p d).readAt q = if q = p then some d else fs.readAt q := by
  unfold FS.write FS.readAt
  by_cases h : q = p
  · subst h; simp [List.find?]
  · have hpq : ((p, d).1 == q) = false := by
      simp only [beq_eq_false_iff_ne, ne_eq]
      exact fun hh => h hh.symm
    simp [List.find?, hpq, h]

theorem FS.mkdirs_files (fs : FS) (d : String) : (fs.mkdirs d).files = fs.files := by
  unfold FS.mkdirs; split <;> rfl

theorem prepare_env_files (fs : FS) (od n m : String) :
    (prepare_env fs od n m).1.files = fs.files := by
  simp [prepare_env, FS.mkdirs_files]

theorem osJoin_right_inj (md : String) {a b : String}
    (ha : strStartsWith a "/" = false) (hb : strStartsWith b "/" = false)
    (h : osJoin md a = osJoin md b) : a = b := by
  unfold osJoin at h
  rw [ha, hb] at h
  simp only [Bool.false_eq_true, if_false] at h
  split_ifs at h with h1 h2
  · exact h
  · have := congrArg String.data h
    simp only [String.data_append] at this
    exact String.ext (List.append_cancel_left this)
  · have := congrArg String.data h
    simp only [String.data_append] at this
    exact String.ext (List.append_cancel_left this)

theorem osJoin_ne (md : String) {a b : String}
    (ha : strStartsWith a "/" = false) (hb : strStartsWith b "/" = false)
    (hab : a ≠ b) : osJoin md a ≠ osJoin md b :=
  fun h => hab (osJoin_right_inj md ha hb h)

theorem do_parse_dump_fatalCodeOf (env : PipeEnv) (fs : FS)
    (md name bytes : String) (orig : List MRec) (a : Bool) (flags : DoParseFlags) :
    (do_parse_dump env fs md name bytes orig a flags).fatalCodeOf = none := by
  unfold do_parse_dump
  by_cases h : env.parseRaises <;> simp [h, DPResult.fatalCodeOf]

theorem do_parse_fatal_inv {env : PipeEnv} {cfg : ModelConfig} {fs : FS}
    {od name bytes : String} {ml : List MRec} {m : String} {flags : DoParseFlags}
    {c : Nat} {fs' : FS}
    (h : do_parse env cfg fs od name bytes ml m flags = .fatal c fs') :
    fs' = (prepare_env fs od name m).1
    ∧ ((c = 1 ∧ ¬(m = "auto" ∨ m = "txt" ∨ m = "ocr"))
       ∨ (c = 2 ∧ cfg.useInsideModel = false)) := by
  simp only [do_parse] at h
  by_cases h1 : (m = "auto" ∨ m = "txt" ∨ m = "ocr")
  · rw [if_pos h1] at h
    by_cases h2 : env.classifyRaises = true
    · rw [if_pos h2] at h
      exact absurd h (by simp)
    · rw [if_neg h2] at h
      by_cases h3 : ml.length = 0
      · rw [if_pos h3] at h
        by_cases h4 : cfg.useInsideModel = true
        · rw [if_pos h4] at h
          by_cases h5 : env.analyzeRaises = true
          · rw [if_pos h5] at h
            exact absurd h (by simp)
          · rw [if_neg h5] at h
            have hd := do_parse_dump_fatalCodeOf env (prepare_env fs od name m).1
              (prepare_env fs od name m).2.2 name bytes env.analyzeResult true flags
            rw [h] at hd
            simp [DPResult.fatalCodeOf] at hd
        · rw [if_neg h4] at h
          injection h with hc hfs
          exact ⟨hfs.symm, .inr ⟨hc.symm, by simpa using h4⟩⟩
      · rw [if_neg h3] at h
        have hd := do_parse_dump_fatalCodeOf env (prepare_env fs od name m).1
          (prepare_env fs od name m).2.2 name bytes ml false flags
        rw [h] at hd
        simp [DPResult.fatalCodeOf] at hd
  · rw [if_neg h1] at h
    injection h with hc hfs
    exact ⟨hfs.symm, .inl ⟨hc.symm, h1⟩⟩

theorem do_parse_unknown {env : PipeEnv} {cfg : ModelConfig} {fs : FS}
    {od name bytes : String} {ml : List MRec} {flags : DoParseFlags} {m : String}
    (hm : ¬(m = "auto" ∨ m = "txt" ∨ m = "ocr")) :
    do_parse env cfg fs od name bytes ml m flags
      = .fatal 1 (prepare_env fs od name m).1 := by
  simp only [do_parse]
  rw [if_neg hm]

theorem processOne_fatal_inv {cfg : ModelConfig} {env : DocEnv} {fs : FS}
    {od p m : String} {c : Nat} {fs' : FS}
    (h : processOne cfg env fs od p m = .fatal c fs') :
    fs'.files = fs.files
    ∧ ((c = 1 ∧ ¬(m = "auto" ∨ m = "txt" ∨ m = "ocr"))
       ∨ (c = 2 ∧ cfg.useInsideModel = false)) := by
  simp only [processOne] at h
  by_cases h1 : env.readRaises = true
  · rw [if_pos h1] at h
    exact absurd h (by simp)
  · rw [if_neg h1] at h
    cases hd : fs.readAt (model_list_path od (stem p) m) with
    | none =>
      simp only [hd] at h
      rcases do_parse_fatal_inv h with ⟨hfs, hc⟩
      exact ⟨by rw [hfs, prepare_env_files], hc⟩
    | some d =>
      simp only [hd] at h
      cases d with
      | jsonModels rs =>
        rcases do_parse_fatal_inv h with ⟨hfs, hc⟩
        exact ⟨by rw [hfs, prepare_env_files], hc⟩
      | garbled => exact absurd h (by simp)
      | text s => exact absurd h (by simp)
      | bin s => exact absurd h (by simp)

theorem processOne_fatalCodeOf_none {cfg : ModelConfig} {env : DocEnv} {fs : FS}
    {od p m : String}
    (hm : m = "auto" ∨ m = "txt" ∨ m = "ocr") (hcfg : cfg.useInsideModel = true) :
    (processOne cfg env fs od p m).fatalCodeOf = none := by
  cases hpo : processOne cfg env fs od p m with
  | ok fs1 a => simp [DPResult.fatalCodeOf]
  | exc fs1 a => simp [DPResult.fatalCodeOf]
  | fatal c fs1 =>
    rcases processOne_fatal_inv hpo with ⟨-, hca | hcb⟩
    · exact absurd hm hca.2
    · rw [hcfg] at hcb
      exact absurd hcb.2 (by simp)

theorem processOne_unknown {cfg : ModelConfig} {env : DocEnv} {fs : FS}
    {od p m : String}
    (hm : ¬(m = "auto" ∨ m = "txt" ∨ m = "ocr")) :
    processOne cfg env fs od p m = .exc fs false
    ∨ processOne cfg env fs od p m = .fatal 1 (prepare_env fs od (stem p) m).1 := by
  simp only [processOne]
  by_cases h1 : env.readRaises = true
  · rw [if_pos h1]
    exact .inl rfl
  · rw [if_neg h1]
    cases hd : fs.readAt (model_list_path od (stem p) m) with
    | none => exact .inr (do_parse_unknown hm)
    | some d =>
      cases d with
      | jsonModels rs => exact .inr (do_parse_unknown hm)
      | garbled => exact .inl rfl
      | text s => exact .inl rfl
      | bin s => exact .inl rfl

theorem runDocs_nil (cfg : ModelConfig) (envOf : String → DocEnv) (m : String)
    (fs : FS) (att summ : List String) :
    runDocs cfg envOf m [] fs att summ = .finished fs att summ := rfl

theorem runDocs_cons (cfg : ModelConfig) (envOf : String → DocEnv) (m : String)
    (p od : String) (rest : List (String × String)) (fs : FS) (att summ : List String) :
    runDocs cfg envOf m ((p, od) :: rest) fs att summ
      = match processOne cfg (envOf p) fs od p m with
        | .ok fs' _ => runDocs cfg envOf m rest fs' (att ++ [p]) (summ ++ [p])
        | .exc fs' _ => runDocs cfg envOf m rest fs' (att ++ [p]) summ
        | .fatal c fs' => .fatal c fs' (att ++ [p]) summ := rfl

theorem runDocs_fatalCode {cfg : ModelConfig} (envOf : String → DocEnv) {m : String}
    (hcfg : cfg.useInsideModel = true) :
    ∀ (docs : List (String × String)) (fs : FS) (att summ : List String),
      (runDocs cfg envOf m docs fs att summ).fatalCode = none
      ∨ (runDocs cfg envOf m docs fs att summ).fatalCode = some 1 := by
  intro docs
  induction docs with
  | nil => intro fs att summ; left; rfl
  | cons d rest ih =>
    intro fs att summ
    obtain ⟨p, od⟩ := d
    rw [runDocs_cons]
    cases hpo : processOne cfg (envOf p) fs od p m with
    | ok fs1 a => exact ih fs1 (att ++ [p]) (summ ++ [p])
    | exc fs1 a => exact ih fs1 (att ++ [p]) summ
    | fatal c fs1 =>
      right
      rcases processOne_fatal_inv hpo with ⟨-, hca | hcb⟩
      · simp [RunOutcome.fatalCode, hca.1]
      · rw [hcfg] at hcb
        exact absurd hcb.2 (by simp)

theorem runDocs_finishes {cfg : ModelConfig} (envOf : String → DocEnv) {m : String}
    (hm : m = "auto" ∨ m = "txt" ∨ m = "ocr") (hcfg : cfg.useInsideModel = true) :
    ∀ (docs : List (String × String)) (fs : FS) (att summ : List String),
      (runDocs cfg envOf m docs fs att summ).fatalCode = none
      ∧ (runDocs cfg envOf m docs fs att summ).attemptedOf
          = att ++ docs.map Prod.fst := by
  intro docs
  induction docs with
  | nil =>
    intro fs att summ
    exact ⟨rfl, by simp [runDocs_nil, RunOutcome.attemptedOf]⟩
  | cons d rest ih =>
    intro fs att summ
    obtain ⟨p, od⟩ := d
    rw [runDocs_cons]
    cases hpo : processOne cfg (envOf p) fs od p m with
    | ok fs1 a =>
      rcases ih fs1 (att ++ [p]) (summ ++ [p]) with ⟨hf, ha⟩
      exact ⟨hf, by rw [ha]; simp⟩
    | exc fs1 a =>
      rcases ih fs1 (att ++ [p]) summ with ⟨hf, ha⟩
      exact ⟨hf, by rw [ha]; simp⟩
    | fatal c fs1 =>
      have hnone := @processOne_fatalCodeOf_none cfg (envOf p) fs od p m hm hcfg
      rw [hpo] at hnone
      exact absurd hnone (by simp [DPResult.fatalCodeOf])

theorem runDocs_unknown_preserves {cfg : ModelConfig} (envOf : String → DocEnv)
    {m : String} (hm : ¬(m = "auto" ∨ m = "txt" ∨ m = "ocr")) :
    ∀ (docs : List (String × String)) (fs : FS) (att summ : List String),
      (runDocs cfg envOf m docs fs att summ).fsOf.files = fs.files
      ∧ (runDocs cfg envOf m docs fs att summ).summaryOf = summ := by
  intro docs
  induction docs with
  | nil => intro fs att summ; exact ⟨rfl, rfl⟩
  | cons d rest ih =>
    intro fs att summ
    obtain ⟨p, od⟩ := d
    rw [runDocs_cons]
    rcases @processOne_unknown cfg (envOf p) fs od p m hm with hpo | hpo
    · rw [hpo]
      exact ih fs (att ++ [p]) summ
    · rw [hpo]
      exact ⟨prepare_env_files fs od (stem p) m, rfl⟩

theorem analyzedOf_dump (env : PipeEnv) (fs : FS) (md name bytes : String)
    (orig : List MRec) (a : Bool) (flags : DoParseFlags) :
    analyzedOf (do_parse_dump env fs md name bytes orig a flags) = a := by
  unfold do_parse_dump
  by_cases h : env.parseRaises = true <;> simp [h, analyzedOf]

theorem analyzedOf_do_parse_nonempty {env : PipeEnv} {cfg : ModelConfig} {fs : FS}
    {od name bytes : String} {rs : List MRec} {m : String} {flags : DoParseFlags}
    (hne : rs ≠ []) :
    analyzedOf (do_parse env cfg fs od name bytes rs m flags) = false := by
  simp only [do_parse]
  by_cases h1 : (m = "auto" ∨ m = "txt" ∨ m = "ocr")
  · rw [if_pos h1]
    by_cases h2 : env.classifyRaises = true
    · rw [if_pos h2]; rfl
    · rw [if_neg h2, if_neg (by simpa using hne)]
      exact analyzedOf_dump env _ _ name bytes rs false flags
  · rw [if_neg h1]; rfl

theorem modelCacheLookup_after_dump (env : PipeEnv) (fs : FS)
    (out_dir file_name m pdf_bytes : String) (orig : List MRec) (a : Bool)
    (hpr : env.parseRaises = false) :
    (do_parse_dump env fs (localMdDir out_dir file_name m) file_name pdf_bytes
        orig a defaultFlags).isOk = true
    ∧ modelCacheLookup (do_parse_dump env fs (localMdDir out_dir file_name m)
        file_name pdf_bytes orig a defaultFlags).fsOf out_dir file_name m
      = some orig := by
  unfold do_parse_dump
  rw [if_neg (by simp [hpr])]
  simp only [defaultFlags, if_true]
  refine ⟨rfl, ?_⟩
  unfold modelCacheLookup
  have hpath : model_list_path out_dir file_name m
      = osJoin (localMdDir out_dir file_name m) "model.json" := rfl
  rw [hpath]
  rw [DPResult.fsOf]
  rw [FS.readAt_write]
  rw [if_neg (osJoin_ne _ (by decide) (by decide) (by decide))]
  rw [FS.readAt_write]
  rw [if_neg (osJoin_ne _ (by decide) (by decide) (by decide))]
  rw [FS.readAt_write]
  rw [if_pos rfl]

theorem joinPathSegs_ne_dot {l : List String} (hne : l ≠ [])
    (hseg : ∀ s ∈ l, s ≠ "" ∧ strStartsWith s "." = false) :
    joinPathSegs l ≠ "." := by
  cases l with
  | nil => exact absurd rfl hne
  | cons s t =>
    cases t with
    | nil =>
      intro hcontra
      have hj : joinPathSegs [s] = s := by simp [joinPathSegs]
      rw [hj] at hcontra
      rcases hseg s (by simp) with ⟨-, hdot⟩
      rw [hcontra] at hdot
      exact absurd hdot (by decide)
    | cons t2 r =>
      intro hcontra
      have hj : joinPathSegs (s :: t2 :: r) = s ++ "/" ++ joinPathSegs (t2 :: r) := by
        simp [joinPathSegs]
      rw [hj] at hcontra
      have hdata := congrArg String.data hcontra
      simp only [String.data_append] at hdata
      have hlen := congrArg List.length hdata
      simp only [List.length_append] at hlen
      rcases hseg s (by simp) with ⟨hs0, -⟩
      have hd0 : s.data ≠ [] := by
        intro hh
        exact hs0 (String.ext hh)
      have hpos : 0 < s.data.length := List.length_pos.mpr hd0
      have hdot : (".").data.length = 1 := by decide
      rw [hdot] at hlen
      simp only [List.length_cons] at hlen
      omega

theorem pdfMatch_segments {e : List String} (hpm : pdfMatch e = true) :
    (∀ s ∈ e, s ≠ "" ∧ strStartsWith s "." = false)
    ∧ strEndsWith ((e.getLast?).getD "") ".pdf" = true := by
  unfold pdfMatch at hpm
  simp only [Bool.and_eq_true, List.all_eq_true] at hpm
  rcases hpm with ⟨⟨-, h2⟩, h3⟩
  refine ⟨fun s hs => ?_, h3⟩
  have := h2 s hs
  simp only [Bool.and_eq_true, Bool.not_eq_true'] at this
  rcases this with ⟨ha, hb⟩
  constructor
  · simpa using ha
  · exact hb

/-- A pipeline environment in which no stage raises. -/
def quietPipe : PipeEnv :=
  { classifyRaises := false, analyzeRaises := false, analyzeResult := [7],
    parseRaises := false, midData := "mid", markdown := "md", contentList := "cl" }

/-- A document whose read and pipeline stages all succeed. -/
def quietDoc : DocEnv := { readRaises := false, pdfBytes := "PDF", pipe := quietPipe }

/-- A document whose read_fn raises an Exception. -/
def raisingDoc : DocEnv := { readRaises := true, pdfBytes := "PDF", pipe := quietPipe }

/-- An environment in which one document raises on read and the others
succeed. -/
def mixedEnvOf : String → DocEnv :=
  fun p => if p = "/in/a.pdf" then raisingDoc else quietDoc

/-- The configuration main installs before processing any document. -/
def cfgFull : ModelConfig := { useInsideModel := true, modelMode := "full" }

/-- The empty filesystem. -/
def fsEmpty : FS := ⟨[], []⟩

/-- A filesystem holding a model.json cache that parses to the empty list. -/
def fsEmptyListCache : FS :=
  ⟨[], [(model_list_path "/out/" "doc" "auto", FileData.jsonModels [])]⟩

/-- A filesystem holding a non-empty model.json cache. -/
def fsCachedRecords : FS :=
  ⟨[], [(model_list_path "/out/" "doc" "auto", FileData.jsonModels [5, 7])]⟩

/-- A filesystem holding a garbled model.json cache. -/
def fsGarbledCache : FS :=
  ⟨[], [(model_list_path "/out/" "doc" "auto", FileData.garbled)]⟩

/-- C1: any Exception raised while processing one document (reading it,
loading its cache, or running the pipeline) is caught at the batch level
and does not abort the batch. First part: a loop body that ends in an
Exception hands control to the loop on the remaining documents unchanged.
Second part: with a recognized method and the internal model enabled (as
main configures), no SystemExit can occur, so the run finishes and every
document of the batch is attempted in discovery order, whatever
exceptions the per-document environments raise. -/
theorem c1_doc_exception_does_not_abort_batch
    (cfg : ModelConfig) (envOf : String → DocEnv) (m : String)
    (hm : m = "auto" ∨ m = "txt" ∨ m = "ocr") (hcfg : cfg.useInsideModel = true) :
    (∀ (p od : String) (rest : List (String × String)) (fs fs1 : FS)
        (att summ : List String) (a : Bool),
        processOne cfg (envOf p) fs od p m = .exc fs1 a →
        runDocs cfg envOf m ((p, od) :: rest) fs att summ
          = runDocs cfg envOf m rest fs1 (att ++ [p]) summ)
    ∧ ∀ (docs : List (String × String)) (fs : FS) (att summ : List String),
        (runDocs cfg envOf m docs fs att summ).fatalCode = none
        ∧ (runDocs cfg envOf m docs fs att summ).attemptedOf
            = att ++ docs.map Prod.fst := by
  constructor
  · intro p od rest fs fs1 att summ a hpo
    rw [runDocs_cons, hpo]
  · exact runDocs_finishes envOf hm hcfg

/-- Witness for C1 at a two-document batch whose first document raises on
read: the run still finishes and both documents are attempted. -/
theorem c1_witness :
    (runDocs cfgFull mixedEnvOf "auto"
        [("/in/a.pdf", "/out/"), ("/in/b.pdf", "/out/")] fsEmpty [] []).fatalCode = none
    ∧ (runDocs cfgFull mixedEnvOf "auto"
        [("/in/a.pdf", "/out/"), ("/in/b.pdf", "/out/")] fsEmpty [] []).attemptedOf
      = [] ++ [("/in/a.pdf", "/out/"), ("/in/b.pdf", "/out/")].map Prod.fst :=
  (c1_doc_exception_does_not_abort_batch cfgFull mixedEnvOf "auto"
    (Or.inl rfl) rfl).2 [("/in/a.pdf", "/out/"), ("/in/b.pdf", "/out/")] fsEmpty [] []

/-- C2: a parse method other than auto, txt or ocr makes do_parse call
exit(1); the SystemExit is not caught by the per-document except clause,
so the whole run terminates with status 1 at the first document that
reaches the parse call, and the remaining documents are never attempted. -/
theorem c2_unknown_method_fatal_for_whole_run
    (cfg : ModelConfig) (envOf : String → DocEnv) (m p od : String)
    (rest : List (String × String)) (fs : FS) (att summ : List String)
    (hm : ¬(m = "auto" ∨ m = "txt" ∨ m = "ocr"))
    (hr : (envOf p).readRaises = false)
    (hc : ∀ d, fs.readAt (model_list_path od (stem p) m) = some d →
        ∃ rs, d = FileData.jsonModels rs) :
    (processOne cfg (envOf p) fs od p m).fatalCodeOf = some 1
    ∧ runDocs cfg envOf m ((p, od) :: rest) fs att summ
        = .fatal 1 ((processOne cfg (envOf p) fs od p m).fsOf) (att ++ [p]) summ := by
  have hpo : processOne cfg (envOf p) fs od p m
      = .fatal 1 (prepare_env fs od (stem p) m).1 := by
    simp only [processOne]
    rw [if_neg (by simp [hr])]
    cases hd : fs.readAt (model_list_path od (stem p) m) with
    | none => exact do_parse_unknown hm
    | some d =>
      rcases hc d hd with ⟨rs, rfl⟩
      exact do_parse_unknown hm
  refine ⟨by rw [hpo]; rfl, ?_⟩
  rw [runDocs_cons, hpo]
  rfl

/-- Witness for C2: a two-document batch under method bogus dies with
status 1 on the first document; the second is never attempted. -/
theorem c2_witness :
    (processOne cfgFull quietDoc fsEmpty "/out/" "/in/doc.pdf" "bogus").fatalCodeOf = some 1
    ∧ runDocs cfgFull (fun _ => quietDoc) "bogus"
        [("/in/doc.pdf", "/out/"), ("/in/b.pdf", "/out/")] fsEmpty [] []
      = .fatal 1 ((processOne cfgFull quietDoc fsEmpty "/out/" "/in/doc.pdf" "bogus").fsOf)
          ([] ++ ["/in/doc.pdf"]) [] :=
  c2_unknown_method_fatal_for_whole_run cfgFull (fun _ => quietDoc) "bogus"
    "/in/doc.pdf" "/out/" [("/in/b.pdf", "/out/")] fsEmpty [] []
    (by decide) rfl
    (fun d h => by simp [fsEmpty, FS.readAt, List.find?] at h)

/-- Counterexample to C3 as stated: a model.json file can exist and still
trigger pipe_analyze. Here the artifact directory contains a model.json
that parses to the empty list; the cache probe finds the file, yet
do_parse sees an empty model list and invokes fresh inference. -/
theorem c3_counterexample :
    (fsEmptyListCache.readAt (model_list_path "/out/" "doc" "auto")).isSome = true
    ∧ analyzedOf (processOne cfgFull quietDoc fsEmptyListCache
        "/out/" "/in/doc.pdf" "auto") = true := by decide

/-- C3 amended: when the model.json in the artifact directory parses to a
non-empty record list, re-running the driver on that document never
invokes pipe_analyze; the cached records are reused. -/
theorem c3_nonempty_cache_skips_inference
    (cfg : ModelConfig) (env : DocEnv) (fs : FS) (od p m : String) (rs : List MRec)
    (hr : env.readRaises = false)
    (hcache : fs.readAt (model_list_path od (stem p) m) = some (.jsonModels rs))
    (hne : rs ≠ []) :
    analyzedOf (processOne cfg env fs od p m) = false := by
  simp only [processOne]
  rw [if_neg (by simp [hr]), hcache]
  exact analyzedOf_do_parse_nonempty hne

/-- Witness for the amended C3 at a concrete cached document. -/
theorem c3_witness :
    analyzedOf (processOne cfgFull quietDoc fsCachedRecords
        "/out/" "/in/doc.pdf" "auto") = false :=
  c3_nonempty_cache_skips_inference cfgFull quietDoc fsCachedRecords
    "/out/" "/in/doc.pdf" "auto" [5, 7] rfl (by decide) (by decide)

/-- C4: the round trip between the model-dump step of do_parse and the
cache lookup of main. Running do_parse with supplied records R (the
non-raising case, any recognized method) succeeds without inference,
writes model.json, and the subsequent ModelCache lookup for the same
(document, method) pair at the same output root returns exactly R, order
preserved. -/
theorem c4_model_json_round_trip
    (env : PipeEnv) (cfg : ModelConfig) (fs : FS)
    (out_dir file_name pdf_bytes m : String) (rs : List MRec)
    (hm : m = "auto" ∨ m = "txt" ∨ m = "ocr")
    (hcl : env.classifyRaises = false) (hpr : env.parseRaises = false)
    (hne : rs ≠ []) :
    (do_parse env cfg fs out_dir file_name pdf_bytes rs m defaultFlags).isOk = true
    ∧ analyzedOf (do_parse env cfg fs out_dir file_name pdf_bytes rs m defaultFlags)
        = false
    ∧ modelCacheLookup
        (do_parse env cfg fs out_dir file_name pdf_bytes rs m defaultFlags).fsOf
        out_dir file_name m = some rs := by
  have hstep : do_parse env cfg fs out_dir file_name pdf_bytes rs m defaultFlags
      = do_parse_dump env (prepare_env fs out_dir file_name m).1
          (localMdDir out_dir file_name m) file_name pdf_bytes rs false defaultFlags := by
    simp only [do_parse]
    rw [if_pos hm, if_neg (by simp [hcl]), if_neg (by simpa using hne)]
    rfl
  rcases modelCacheLookup_after_dump env (prepare_env fs out_dir file_name m).1
      out_dir file_name m pdf_bytes rs false hpr with ⟨hok, hlook⟩
  exact ⟨by rw [hstep]; exact hok,
    by rw [hstep]; exact analyzedOf_dump env _ _ file_name pdf_bytes rs false defaultFlags,
    by rw [hstep]; exact hlook⟩

/-- Witness for C4 at concrete records. -/
theorem c4_witness :
    (do_parse quietPipe cfgFull fsEmpty "/out/" "doc" "PDF" [5, 7] "auto"
        defaultFlags).isOk = true
    ∧ analyzedOf (do_parse quietPipe cfgFull fsEmpty "/out/" "doc" "PDF" [5, 7] "auto"
        defaultFlags) = false
    ∧ modelCacheLookup (do_parse quietPipe cfgFull fsEmpty "/out/" "doc" "PDF" [5, 7]
        "auto" defaultFlags).fsOf "/out/" "doc" "auto" = some [5, 7] :=
  c4_model_json_round_trip quietPipe cfgFull fsEmpty "/out/" "doc" "PDF" "auto" [5, 7]
    (Or.inl rfl) rfl rfl (by decide)

/-- Counterexample to C5 as stated: on a garbled model.json the system
does not re-run inference and does not process the document. json.loads
raises, the loop body ends in an Exception with the filesystem unchanged
and pipe_analyze never invoked. -/
theorem c5_counterexample :
    fsGarbledCache.readAt (model_list_path "/out/" "doc" "auto")
        = some FileData.garbled
    ∧ processOne cfgFull quietDoc fsGarbledCache "/out/" "/in/doc.pdf" "auto"
        = .exc fsGarbledCache false := by decide

/-- C5 amended: a garbled model.json makes the cache load raise; the
Exception is caught at the batch level, so that document fails without
re-running inference or writing artifacts, and the batch continues with
the remaining documents. -/
theorem c5_garbled_cache_fails_document_only
    (cfg : ModelConfig) (envOf : String → DocEnv) (p od m : String)
    (rest : List (String × String)) (fs : FS) (att summ : List String)
    (hr : (envOf p).readRaises = false)
    (hg : fs.readAt (model_list_path od (stem p) m) = some FileData.garbled) :
    processOne cfg (envOf p) fs od p m = .exc fs false
    ∧ runDocs cfg envOf m ((p, od) :: rest) fs att summ
        = runDocs cfg envOf m rest fs (att ++ [p]) summ := by
  have hpo : processOne cfg (envOf p) fs od p m = .exc fs false := by
    simp only [processOne]
    rw [if_neg (by simp [hr]), hg]
  refine ⟨hpo, ?_⟩
  rw [runDocs_cons, hpo]

/-- Witness for the amended C5 at a concrete garbled cache. -/
theorem c5_witness :
    processOne cfgFull quietDoc fsGarbledCache "/out/" "/in/doc.pdf" "auto"
      = .exc fsGarbledCache false
    ∧ runDocs cfgFull (fun _ => quietDoc) "auto"
        [("/in/doc.pdf", "/out/"), ("/in/b.pdf", "/out/")] fsGarbledCache [] []
      = runDocs cfgFull (fun _ => quietDoc) "auto" [("/in/b.pdf", "/out/")]
          fsGarbledCache ([] ++ ["/in/doc.pdf"]) [] :=
  c5_garbled_cache_fails_document_only cfgFull (fun _ => quietDoc)
    "/in/doc.pdf" "/out/" "auto" [("/in/b.pdf", "/out/")] fsGarbledCache [] []
    rfl (by decide)

/-- C6: the artifact directory is the pure deterministic path
output_root/document_name/parse_method, with an images subdirectory
beneath it; the pair of paths prepare_env returns does not depend on the
filesystem state, and the cache-lookup path used by the batch runner
equals the path where the driver dumps model.json. The concrete equations
show the slash-joined shape of the computed paths. -/
theorem c6_artifact_paths_deterministic :
    (∀ (fs gs : FS) (root name m : String),
        (prepare_env fs root name m).2.2 = osJoin (osJoin root name) m
        ∧ (prepare_env fs root name m).2.1
            = osJoin (osJoin (osJoin root name) m) "images"
        ∧ (prepare_env fs root name m).2 = (prepare_env gs root name m).2
        ∧ model_list_path root name m = model_dump_path root name m)
    ∧ localMdDir "/out" "doc" "auto" = "/out/doc/auto"
    ∧ osJoin (localMdDir "/out" "doc" "auto") "images" = "/out/doc/auto/images"
    ∧ model_list_path "/out" "doc" "auto" = "/out/doc/auto/model.json" := by
  refine ⟨fun fs gs root name m => ⟨rfl, rfl, rfl, rfl⟩, by decide, by decide, by decide⟩

/-- C7: job collection. A single-file input yields exactly that file with
the empty relative output directory. A directory input yields exactly the
globbed PDF entries, each paired with out_root joined to its relative
parent directory, where a root-level file (empty parent) maps to the
empty subdirectory and a nested file maps to its slash-joined parent
segments. The concrete equations show the scenario from the spec and
that the single-file artifact directory has no intermediate segment. -/
theorem c7_job_collection :
    (∀ (p out_root : String),
        collectJobs (.file p) out_root = [(p, osJoin out_root "")])
    ∧ (∀ (root : String) (entries : List (List String)) (out_root : String),
        collectJobs (.dir root entries) out_root
          = (globPdf entries).map (fun e =>
              (osJoin root (joinPathSegs e),
               osJoin out_root (if relDirOf e = "." then "" else relDirOf e))))
    ∧ (∀ e : List String, e.dropLast = [] →
        (if relDirOf e = "." then "" else relDirOf e) = "")
    ∧ (∀ (entries : List (List String)) (e : List String),
        e ∈ globPdf entries → e.dropLast ≠ [] →
        (if relDirOf e = "." then "" else relDirOf e) = joinPathSegs e.dropLast)
    ∧ collectJobs (.dir "/in" [["a", "x.pdf"], ["b", "y.pdf"]]) "/out"
        = [("/in/a/x.pdf", "/out/a"), ("/in/b/y.pdf", "/out/b")]
    ∧ localMdDir "/out/a" "x" "auto" = "/out/a/x/auto"
    ∧ localMdDir (osJoin "/out" "") "doc" "auto" = "/out/doc/auto" := by
  refine ⟨?_, ?_, ?_, ?_, by decide, by decide, by decide⟩
  · intro p out_root
    rfl
  · intro root entries out_root
    simp only [collectJobs, List.map_map, List.zip_map']
    rfl
  · intro e h
    simp [relDirOf, h]
  · intro entries e hmem hne
    have hpm : pdfMatch e = true := (List.mem_filter.mp hmem).2
    have hall := (pdfMatch_segments hpm).1
    have h1 : relDirOf e = joinPathSegs e.dropLast := by
      simp [relDirOf, List.isEmpty_iff, hne]
    rw [h1]
    rw [if_neg (joinPathSegs_ne_dot hne
      (fun s hs => hall s ((List.dropLast_sublist e).subset hs)))]

/-- Witness for C7: the non-root branch applied to a concrete nested
entry. -/
theorem c7_witness :
    (if relDirOf ["a", "x.pdf"] = "." then "" else relDirOf ["a", "x.pdf"])
      = joinPathSegs (["a", "x.pdf"].dropLast) :=
  c7_job_collection.2.2.2.1 [["a", "x.pdf"]] ["a", "x.pdf"] (by decide) (by decide)

/-- Counterexample to C8 as stated: under the unknown method bogus the run
does terminate immediately with status 1, but the output filesystem does
not stay untouched: prepare_env runs before the method check, so the
artifact directory and images subdirectory of the first document are created.
The spec counts the images directory among the per-document artifacts, so
some output is produced. -/
theorem c8_counterexample :
    mainRun (fun _ => quietDoc) (.file "/in/doc.pdf") "/out" fsEmpty "bogus"
      = .fatal 1 ⟨["/out/doc/bogus", "/out/doc/bogus/images"], []⟩ ["/in/doc.pdf"] []
    ∧ (mainRun (fun _ => quietDoc) (.file "/in/doc.pdf") "/out" fsEmpty "bogus").fsOf
        ≠ fsEmpty := by decide

/-- C8 amended: under an unsupported parse method no artifact file is ever
written for any document and no document completes (the summary stays
empty); the only filesystem change is the creation of the first reached
output directories of the first reached document, created before the
method check. -/
theorem c8_unknown_method_writes_no_artifact_files
    (cfg : ModelConfig) (envOf : String → DocEnv) (m : String)
    (hm : ¬(m = "auto" ∨ m = "txt" ∨ m = "ocr")) :
    ∀ (docs : List (String × String)) (fs : FS) (att summ : List String),
      (runDocs cfg envOf m docs fs att summ).fsOf.files = fs.files
      ∧ (runDocs cfg envOf m docs fs att summ).summaryOf = summ :=
  runDocs_unknown_preserves envOf hm

/-- Witness for the amended C8 at a concrete batch. -/
theorem c8_witness :
    (runDocs cfgFull (fun _ => quietDoc) "bogus"
        [("/in/doc.pdf", "/out/")] fsEmpty [] []).fsOf.files = fsEmpty.files
    ∧ (runDocs cfgFull (fun _ => quietDoc) "bogus"
        [("/in/doc.pdf", "/out/")] fsEmpty [] []).summaryOf = [] :=
  c8_unknown_method_writes_no_artifact_files cfgFull (fun _ => quietDoc) "bogus"
    (by decide) [("/in/doc.pdf", "/out/")] fsEmpty [] []

/-- C9: directory discovery matches only files whose name ends in the
lowercase extension .pdf; entries with an uppercase or mixed-case
extension are silently dropped, as the concrete batch shows, and then
produce no job at all. -/
theorem c9_discovery_only_lowercase_pdf :
    (∀ (entries : List (List String)) (e : List String),
        e ∈ globPdf entries → strEndsWith ((e.getLast?).getD "") ".pdf" = true)
    ∧ globPdf [["Doc.PDF"], ["b.Pdf"], ["c.pdf"]] = [["c.pdf"]]
    ∧ collectJobs (.dir "/in" [["Doc.PDF"]]) "/out" = [] := by
  refine ⟨?_, by decide, by decide⟩
  intro entries e hmem
  exact (pdfMatch_segments (List.mem_filter.mp hmem).2).2

/-- Witness for C9 at a concrete matched entry. -/
theorem c9_witness :
    strEndsWith (((["a", "x.pdf"] : List String).getLast?).getD "") ".pdf" = true :=
  c9_discovery_only_lowercase_pdf.1 [["a", "x.pdf"]] ["a", "x.pdf"] (by decide)

/-- C10: every run entered through main is safe from the exit(2) branch of
do_parse: main sets useInsideModel to true before the loop, so the only
SystemExit a run can die with carries status 1, never the status 2 of the
need-model-list branch. -/
theorem c10_exit2_unreachable_from_main
    (envOf : String → DocEnv) (inp : InputFS) (out_root : String)
    (fs : FS) (m : String) :
    ((mainRun envOf inp out_root fs m).fatalCode == some 2) = false := by
  unfold mainRun
  rcases @runDocs_fatalCode ⟨true, "full"⟩ envOf m rfl
      (collectJobs inp out_root) fs [] [] with h | h
  · rw [h]; rfl
  · rw [h]; rfl
